import Mathlib

/-
Verification of the TCR-Calculator simulation engine.

The Python source stores material properties in string-keyed dictionaries
whose values may be numbers, missing keys, or unparsable strings; floats are
modelled as real numbers, `float('inf')` as an explicit sentinel constructor,
and a value that raises on `float(...)` as `FVal.bad`.
-/

namespace TCR

/-- Value held in a material-property dictionary slot: a number, a slot whose
content raises `ValueError` when converted with `float`, or an absent key
(which `dict.get(k, 0)` turns into `0`). -/
inductive FVal where
  | num (x : ℝ)
  | bad
  | missing

/-- Result of `float(d.get(k, 0))`: `none` when the stored value does not
parse (the surrounding `try` then aborts the resolver). -/
noncomputable def FVal.toFloat : FVal → Option ℝ
  | .num x => some x
  | .bad => none
  | .missing => some 0

/-- Scaled field read `float(d.get(k, 0)) * scale` from `get_val` in
`SimulationManager.get_interface_params`. -/
noncomputable def get_val (v : FVal) (scale : ℝ) : Option ℝ :=
  v.toFloat.map (fun x => x * scale)

/-- Raw material record keyed by geometry name (`self.materials[name]`); a
geometry with no entry at all is modelled by every field `missing`, matching
`self.materials.get(name, {})`. -/
structure Material where
  sigma : FVal
  m : FVal
  k : FVal
  young : FVal
  poisson : FVal
  hc : FVal

/-- Material with no populated fields, the `{}` default of `dict.get`. -/
def Material.empty : Material := ⟨.missing, .missing, .missing, .missing, .missing, .missing⟩

/-- Solid block from `models.Geometry` (name, length, width, height). -/
structure Geometry where
  name : String
  length : ℝ
  width : ℝ
  height : ℝ

/-- Derived block cross-section `area = length * width`. -/
noncomputable def Geometry.area (g : Geometry) : ℝ := g.length * g.width

/-- Contact interface from `models.Interface`; `A_nominal` is stored at
construction time by the Python constructor. -/
structure Interface where
  geom_top : Geometry
  geom_bottom : Geometry
  has_tcr : Bool
  A_nominal : ℝ

/-- Constructor of `models.Interface`: `A_nominal = min(top.area, bottom.area)`. -/
noncomputable def mkInterface (t b : Geometry) (tcr : Bool) : Interface :=
  ⟨t, b, tcr, min t.area b.area⟩

/-- Effective interface parameter bundle returned by
`SimulationManager.get_interface_params`. -/
structure IfaceParams where
  name : String
  sig_s : ℝ
  m_s : ℝ
  k_s : ℝ
  e_s : ℝ
  hc_soft : ℝ
  A_nom : ℝ

/-- Harmonic-style combination `k_s = 2*k_1*k_2/(k_1+k_2)` guarded by
`k_1 + k_2 > 0`, from `get_interface_params`. -/
noncomputable def harm_k (k_1 k_2 : ℝ) : ℝ :=
  if 0 < k_1 + k_2 then 2 * k_1 * k_2 / (k_1 + k_2) else 0

/-- Elastic-modulus combination with the `denom > 0` guard. -/
noncomputable def comb_e (e_1 e_2 v_1 v_2 : ℝ) : ℝ :=
  if 0 < e_2 * (1 - v_1 ^ 2) + e_1 * (1 - v_2 ^ 2) then
    e_1 * e_2 / (e_2 * (1 - v_1 ^ 2) + e_1 * (1 - v_2 ^ 2))
  else 0

/-- Softer-material microhardness: minimum of the positive values among the
two, `0` when neither is positive. -/
noncomputable def soft_hc (hc_1 hc_2 : ℝ) : ℝ :=
  if 0 < hc_1 then (if 0 < hc_2 then min hc_1 hc_2 else hc_1)
  else (if 0 < hc_2 then hc_2 else 0)

/-- `SimulationManager.get_interface_params`: SI normalisation and
combination of the two adjoining materials; `none` when any used field fails
to parse (the `except` branch of the source). -/
noncomputable def get_interface_params (materials : String → Material)
    (iface : Interface) : Option IfaceParams := do
  let mt := materials iface.geom_top.name
  let mb := materials iface.geom_bottom.name
  let sig_1 ← get_val mt.sigma (1e-6)
  let sig_2 ← get_val mb.sigma (1e-6)
  let m_1 ← get_val mt.m 1
  let m_2 ← get_val mb.m 1
  let k_1 ← get_val mt.k 1
  let k_2 ← get_val mb.k 1
  let e_1 ← get_val mt.young (1e9)
  let e_2 ← get_val mb.young (1e9)
  let v_1 ← get_val mt.poisson 1
  let v_2 ← get_val mb.poisson 1
  let hc_1 ← get_val mt.hc (1e6)
  let hc_2 ← get_val mb.hc (1e6)
  pure { name := iface.geom_top.name ++ " → " ++ iface.geom_bottom.name
         sig_s := Real.sqrt (sig_1 ^ 2 + sig_2 ^ 2)
         m_s := Real.sqrt (m_1 ^ 2 + m_2 ^ 2)
         k_s := harm_k k_1 k_2
         e_s := comb_e e_1 e_2 v_1 v_2
         hc_soft := soft_hc hc_1 hc_2
         A_nom := iface.A_nominal }

/-- `SimulationManager.calc_mikic_elastic`. -/
noncomputable def calc_mikic_elastic (p : IfaceParams) (P : ℝ) : ℝ :=
  if 0 < p.sig_s ∧ 0 < p.m_s ∧ 0 < p.e_s then
    (if 0 < Real.sqrt 2 * P / (p.m_s * p.e_s) then
      1.54 * p.k_s * (p.m_s / p.sig_s) * (Real.sqrt 2 * P / (p.m_s * p.e_s)) ^ (0.94 : ℝ)
    else 0)
  else 0

/-- `SimulationManager.calc_mikic_plastic`. -/
noncomputable def calc_mikic_plastic (p : IfaceParams) (P : ℝ) : ℝ :=
  if 0 < p.sig_s ∧ 0 < p.m_s ∧ 0 < p.hc_soft then
    (if 0 < P / p.hc_soft then
      1.13 * p.k_s * (p.m_s / p.sig_s) * (P / p.hc_soft) ^ (0.94 : ℝ)
    else 0)
  else 0

/-- `SimulationManager.calc_cmy`. -/
noncomputable def calc_cmy (p : IfaceParams) (P : ℝ) : ℝ :=
  if 0 < p.sig_s ∧ 0 < p.m_s ∧ 0 < p.hc_soft then
    (if 0 < P / p.hc_soft then
      1.45 * p.k_s * (p.m_s / p.sig_s) * (P / p.hc_soft) ^ (0.985 : ℝ)
    else 0)
  else 0

/-- `SimulationManager.calc_yovanovich`. -/
noncomputable def calc_yovanovich (p : IfaceParams) (P : ℝ) : ℝ :=
  if 0 < p.sig_s ∧ 0 < p.m_s ∧ 0 < p.hc_soft then
    (if 0 < P / p.hc_soft then
      1.25 * p.k_s * (p.m_s / p.sig_s) * (P / p.hc_soft) ^ (0.95 : ℝ)
    else 0)
  else 0

/-- Modelled from the spec wording of §4.2: Mikic elastic returns the closed
formula exactly when all of its guards hold simultaneously, else 0. -/
noncomputable def specMikicElastic (p : IfaceParams) (P : ℝ) : ℝ :=
  if 0 < p.sig_s ∧ 0 < p.m_s ∧ 0 < p.e_s ∧ 0 < Real.sqrt 2 * P / (p.m_s * p.e_s) then
    1.54 * p.k_s * (p.m_s / p.sig_s) * (Real.sqrt 2 * P / (p.m_s * p.e_s)) ^ (0.94 : ℝ)
  else 0

/-- Modelled from the spec wording of §4.2 for the three plastic-family
kernels, parameterised by coefficient and exponent. -/
noncomputable def specPlasticFamily (c ex : ℝ) (p : IfaceParams) (P : ℝ) : ℝ :=
  if 0 < p.sig_s ∧ 0 < p.m_s ∧ 0 < p.hc_soft ∧ 0 < P / p.hc_soft then
    c * p.k_s * (p.m_s / p.sig_s) * (P / p.hc_soft) ^ ex
  else 0

/-- TIM record as stored by the materials controller. -/
structure Tim where
  name : String
  k : ℝ
  ttype : String
  pressure_dependent : Bool

/-- Resistance value as stored in Python result rows: a finite float or
`float('inf')`. -/
inductive RVal where
  | fin (r : ℝ)
  | infty

/-- Per-interface configuration handed to `run_model`: the interface widget
row, the selected TIM name, and the parse result of
`float(thickness_entry.get().replace(',', '.'))` (`none` on `ValueError`). -/
structure Cfg where
  iface : Interface
  tim_name : String
  blt : Option ℝ

/-- Gap conductance `h_int` computed inside `run_model`'s force loop from the
selected TIM, the effective parameters and the pressure. -/
noncomputable def gap_h (tims : List Tim) (tim_name : String) (blt : Option ℝ)
    (p : IfaceParams) (P : ℝ) : ℝ :=
  match tims.find? (fun t => decide (t.name = tim_name)) with
  | none => 0
  | some tim =>
    if tim.ttype = "gas" ∧ tim.pressure_dependent = true then
      (if 0 < p.hc_soft ∧ 0 < p.sig_s ∧ 0 < P then
        (if 0 < 1.53 * p.sig_s * (P / p.hc_soft) ^ (-0.097 : ℝ) then
          tim.k / (1.53 * p.sig_s * (P / p.hc_soft) ^ (-0.097 : ℝ))
        else 0)
      else 0)
    else
      match blt with
      | some b => if 0 < b then tim.k / b else 0
      | none => 0

/-- Resistance from a conductance over the nominal area, with the source's
`if h > 0` guard producing the infinite sentinel otherwise. -/
noncomputable def rcomb (h A : ℝ) : RVal :=
  if 0 < h then RVal.fin (1 / (h * A)) else RVal.infty

/-- Percent metal-to-metal contact `pct_styku` of `run_model`: the source
applies only `min(100.0, …)`, with no lower clamp. -/
noncomputable def rowPct (p : IfaceParams) (P : ℝ) : ℝ :=
  if 0 < p.hc_soft then min 100 (P / p.hc_soft * 100) else 0

/-- Detail result row appended to `results_tcr` by `run_model`. -/
structure DetailRow where
  force_N : ℝ
  iface_label : String
  pressure_Pa : ℝ
  pct_styku : ℝ
  pct_int : ℝ
  h_c : ℝ
  R_c : RVal
  h_int : ℝ
  R_int : RVal
  h_eff : ℝ
  TCR : RVal
  K : ℝ

/-- Detail row built by one iteration of `run_model`'s force loop (reached
only when `A_nom > 0`). -/
noncomputable def mkRow (tims : List Tim) (cfun : IfaceParams → ℝ → ℝ)
    (cfg : Cfg) (p : IfaceParams) (f : ℝ) : DetailRow :=
  { force_N := f
    iface_label := p.name
    pressure_Pa := f / p.A_nom
    pct_styku := rowPct p (f / p.A_nom)
    pct_int := 100 - rowPct p (f / p.A_nom)
    h_c := cfun p (f / p.A_nom)
    R_c := rcomb (cfun p (f / p.A_nom)) p.A_nom
    h_int := gap_h tims cfg.tim_name cfg.blt p (f / p.A_nom)
    R_int := rcomb (gap_h tims cfg.tim_name cfg.blt p (f / p.A_nom)) p.A_nom
    h_eff := cfun p (f / p.A_nom) + gap_h tims cfg.tim_name cfg.blt p (f / p.A_nom)
    TCR := rcomb (cfun p (f / p.A_nom) + gap_h tims cfg.tim_name cfg.blt p (f / p.A_nom)) p.A_nom
    K := if 0 < cfun p (f / p.A_nom) + gap_h tims cfg.tim_name cfg.blt p (f / p.A_nom) then
        0.0001 / (1 / ((cfun p (f / p.A_nom) + gap_h tims cfg.tim_name cfg.blt p (f / p.A_nom)) * p.A_nom) * p.A_nom)
      else 0 }

/-- One entry of `iface_tcr_accumulation`: the force and the TCR recorded for
it. -/
structure TCREntry where
  force : ℝ
  R_val : RVal

/-- Accumulation dictionary keyed by interface display name, in insertion
order; `setdefault(name, []).append(e)` semantics. -/
noncomputable def accAppend (acc : List (String × List TCREntry)) (name : String)
    (e : TCREntry) : List (String × List TCREntry) :=
  if acc.any (fun pr => decide (pr.1 = name)) then
    acc.map (fun pr => if pr.1 = name then (pr.1, pr.2 ++ [e]) else pr)
  else acc ++ [(name, [e])]

/-- Bulk contribution of one geometry layer in `_calculate_system_q`: added
only when its `k` parses and is positive; a `ZeroDivisionError` from a zero
cross-section is swallowed by the source's `except`, skipping the layer. -/
noncomputable def bulkContribution (materials : String → Material) (g : Geometry) : ℝ :=
  match ((materials g.name).k).toFloat with
  | none => 0
  | some k =>
    if 0 < k then
      (if k * (g.length * g.width) = 0 then 0 else g.height / (k * (g.length * g.width)))
    else 0

/-- Force-independent total bulk resistance `R_bulk_total`. -/
noncomputable def bulk_total (materials : String → Material) (gs : List Geometry) : ℝ :=
  (gs.map (bulkContribution materials)).sum

/-- First accumulated entry whose force matches `f` within the source's
`1e-9` tolerance. -/
noncomputable def entryFor (entries : List TCREntry) (f : ℝ) : Option TCREntry :=
  entries.find? (fun e => decide (|e.force - f| < 1e-9))

/-- One step of the per-force scan over the accumulation dictionary: state is
`(sum_R_interface, valid, found_interfaces)`. -/
noncomputable def qStep (f : ℝ) (st : ℝ × Bool × ℕ) (pr : String × List TCREntry) :
    ℝ × Bool × ℕ :=
  match entryFor pr.2 f with
  | none => st
  | some e =>
    match e.R_val with
    | .infty => (st.1, false, st.2.2 + 1)
    | .fin r => (st.1 + r, st.2.1, st.2.2 + 1)

/-- Summary result row appended to `q_rows`. -/
structure SummaryRow where
  force_N : ℝ
  R_U : ℝ
  TCRsum : ℝ
  R_total : RVal
  Q : ℝ

/-- Summary row for one force, from `_calculate_system_q`. -/
noncomputable def summaryRowFor (Rb dT : ℝ) (data : List (String × List TCREntry))
    (f : ℝ) : SummaryRow :=
  let st := data.foldl (qStep f) (0, true, 0)
  if st.2.1 = false ∨ st.2.2 = 0 then
    ⟨f, Rb, st.1, RVal.infty, 0⟩
  else
    ⟨f, Rb, st.1, RVal.fin (Rb + st.1), if 0 < Rb + st.1 then dT / (Rb + st.1) else 0⟩

/-- `SimulationManager._calculate_system_q`. -/
noncomputable def calculate_system_q (materials : String → Material)
    (geoms : List Geometry) (forces : List ℝ)
    (data : List (String × List TCREntry)) (thot tcold : ℝ) : List SummaryRow :=
  forces.map (summaryRowFor (bulk_total materials geoms) |thot - tcold| data)

/-- One iteration of `run_model`'s inner force loop: skip when
`A_nom <= 0`, otherwise append the detail row and accumulate its TCR. -/
noncomputable def runStepForce (tims : List Tim) (cfun : IfaceParams → ℝ → ℝ)
    (cfg : Cfg) (p : IfaceParams)
    (st : List DetailRow × List (String × List TCREntry)) (f : ℝ) :
    List DetailRow × List (String × List TCREntry) :=
  if p.A_nom ≤ 0 then st
  else
    (st.1 ++ [mkRow tims cfun cfg p f],
     accAppend st.2 p.name ⟨f, (mkRow tims cfun cfg p f).TCR⟩)

/-- One iteration of `run_model`'s outer config loop: an interface whose
parameters fail to resolve is skipped entirely. -/
noncomputable def runStepCfg (materials : String → Material) (tims : List Tim)
    (cfun : IfaceParams → ℝ → ℝ) (forces : List ℝ)
    (st : List DetailRow × List (String × List TCREntry)) (cfg : Cfg) :
    List DetailRow × List (String × List TCREntry) :=
  match get_interface_params materials cfg.iface with
  | none => st
  | some p => forces.foldl (runStepForce tims cfun cfg p) st

/-- Return value of `run_model`. -/
structure RunResult where
  ok : Bool
  msg : String
  details : List DetailRow
  summary : List SummaryRow

/-- `SimulationManager.run_model`. -/
noncomputable def run_model (materials : String → Material) (tims : List Tim)
    (geoms : List Geometry) (forces : List ℝ) (cfun : IfaceParams → ℝ → ℝ)
    (configs : List Cfg) (thot tcold : ℝ) : RunResult :=
  if configs.isEmpty then
    ⟨false, "Brak skonfigurowanych interfejsów.", [], []⟩
  else if forces.isEmpty then
    ⟨false, "Brak zdefiniowanych sił w systemie.", [], []⟩
  else
    let st := configs.foldl (runStepCfg materials tims cfun forces) ([], [])
    ⟨true, "OK", st.1, calculate_system_q materials geoms forces st.2 thot tcold⟩

/-- Name pair keying an interface in `rebuild_interfaces`'s old-TCR dict. -/
def ikey (i : Interface) : String × String := (i.geom_top.name, i.geom_bottom.name)

/-- Python-dict insertion: an existing key keeps its position and gets the
new value, a fresh key is appended. -/
def dinsert (d : List ((String × String) × Bool)) (kv : (String × String) × Bool) :
    List ((String × String) × Bool) :=
  if d.any (fun pr => decide (pr.1 = kv.1)) then
    d.map (fun pr => if pr.1 = kv.1 then kv else pr)
  else d ++ [kv]

/-- Dict comprehension `{(top.name, bottom.name): has_tcr for iface in old}`. -/
def dictOf (old : List Interface) : List ((String × String) × Bool) :=
  old.foldl (fun d i => dinsert d (ikey i, i.has_tcr)) []

/-- `dict.get(key, False)`. -/
def dget (d : List ((String × String) × Bool)) (k : String × String) : Bool :=
  match d.find? (fun pr => decide (pr.1 = k)) with
  | some pr => pr.2
  | none => false

/-- Consecutive pairs `(geometries[i], geometries[i+1])` of the stack. -/
def consecutivePairs (gs : List Geometry) : List (Geometry × Geometry) :=
  gs.zip gs.tail

/-- Name pairs `new_keys` of the regenerated interfaces. -/
def newKeysOf (gs : List Geometry) : List (String × String) :=
  (consecutivePairs gs).map (fun pr => (pr.1.name, pr.2.name))

/-- `SystemManager.rebuild_interfaces`: regenerate one interface per
consecutive geometry pair, carrying `has_tcr` over from the old dict, and
report the TCR-flagged old pairs that no longer exist. -/
noncomputable def rebuild_interfaces (old : List Interface) (gs : List Geometry) :
    List Interface × List (String × String) :=
  ((consecutivePairs gs).map
      (fun pr => mkInterface pr.1 pr.2 (dget (dictOf old) (pr.1.name, pr.2.name))),
   ((dictOf old).filter
      (fun kv : (String × String) × Bool =>
        kv.2 && !((newKeysOf gs).any (fun k => decide (k = kv.1))))).map
     (fun kv => kv.1))

/-- Flag the rebuilt interface for a name pair should carry according to the
spec: the old interface's flag when the pair was an interface before, `false`
for a new pair. -/
def flagSpec (old : List Interface) (k : String × String) : Bool :=
  match old.find? (fun i => decide (ikey i = k)) with
  | some i => i.has_tcr
  | none => false

/-- C2: each of the four contact-conductance kernels is a total function
equal to its spec formula under its guards — Mikic elastic returns
1.54·k_s·(m_s/sig_s)·(√2·P/(m_s·e_s))^0.94 when sig_s, m_s, e_s and the inner
term are positive, else 0; Mikic plastic, CMY and Yovanovich return
1.13/1.45/1.25·k_s·(m_s/sig_s)·(P/hc_soft)^(0.94/0.985/0.95) when sig_s,
m_s, hc_soft and P/hc_soft are positive, else 0; and zero or negative
pressure always yields 0. -/
theorem c2_kernels (p : IfaceParams) (P : ℝ) :
    calc_mikic_elastic p P = specMikicElastic p P ∧
    calc_mikic_plastic p P = specPlasticFamily 1.13 0.94 p P ∧
    calc_cmy p P = specPlasticFamily 1.45 0.985 p P ∧
    calc_yovanovich p P = specPlasticFamily 1.25 0.95 p P ∧
    (P ≤ 0 → calc_mikic_elastic p P = 0 ∧ calc_mikic_plastic p P = 0 ∧
      calc_cmy p P = 0 ∧ calc_yovanovich p P = 0) := by
  refine ⟨?_, ?_, ?_, ?_, ?_⟩
  · unfold calc_mikic_elastic specMikicElastic
    split_ifs <;> first | rfl | tauto
  · unfold calc_mikic_plastic specPlasticFamily
    split_ifs <;> first | rfl | tauto
  · unfold calc_cmy specPlasticFamily
    split_ifs <;> first | rfl | tauto
  · unfold calc_yovanovich specPlasticFamily
    split_ifs <;> first | rfl | tauto
  · intro hP
    have hplastic : 0 < p.hc_soft → ¬ (0 < P / p.hc_soft) := by
      intro hc
      exact not_lt.mpr (div_nonpos_iff.mpr (Or.inr ⟨hP, hc.le⟩))
    refine ⟨?_, ?_, ?_, ?_⟩
    · unfold calc_mikic_elastic
      split_ifs with h1 h2
      · exfalso
        rcases h1 with ⟨_, hm, he⟩
        have hme : (0 : ℝ) ≤ p.m_s * p.e_s := (mul_pos hm he).le
        have h3 : Real.sqrt 2 * P ≤ 0 :=
          mul_nonpos_iff.mpr (Or.inl ⟨Real.sqrt_nonneg 2, hP⟩)
        exact absurd (div_nonpos_iff.mpr (Or.inr ⟨h3, hme⟩)) (not_le.mpr h2)
      · rfl
      · rfl
    · unfold calc_mikic_plastic
      split_ifs with h1 h2
      · exact absurd h2 (hplastic h1.2.2)
      · rfl
      · rfl
    · unfold calc_cmy
      split_ifs with h1 h2
      · exact absurd h2 (hplastic h1.2.2)
      · rfl
      · rfl
    · unfold calc_yovanovich
      split_ifs with h1 h2
      · exact absurd h2 (hplastic h1.2.2)
      · rfl
      · rfl

/-- Concrete parameter bundle (all combined values 1) used by witnesses. -/
noncomputable def pOne : IfaceParams := ⟨"A → B", 1, 1, 1, 1, 1, 1⟩

/-- Witness for C2 at the concrete bundle `pOne` and pressure −1 ≤ 0. -/
theorem c2_kernels_witness :
    (-1 : ℝ) ≤ 0 ∧
    calc_mikic_elastic pOne (-1) = 0 ∧ calc_mikic_plastic pOne (-1) = 0 ∧
    calc_cmy pOne (-1) = 0 ∧ calc_yovanovich pOne (-1) = 0 ∧
    calc_mikic_elastic pOne (-1) = specMikicElastic pOne (-1) :=
  ⟨by norm_num,
   ((c2_kernels pOne (-1)).2.2.2.2 (by norm_num)).1,
   ((c2_kernels pOne (-1)).2.2.2.2 (by norm_num)).2.1,
   ((c2_kernels pOne (-1)).2.2.2.2 (by norm_num)).2.2.1,
   ((c2_kernels pOne (-1)).2.2.2.2 (by norm_num)).2.2.2,
   (c2_kernels pOne (-1)).1⟩

/-- C6 counterexample: for k_1 = 1 and k_2 = 3, both positive, the derived
k_s = 2·1·3/4 = 3/2 strictly exceeds min(k_1, k_2) = 1, so the claimed bound
k_s ≤ min(k_1, k_2) is false. -/
theorem c6_counterexample :
    (0 : ℝ) < 1 ∧ (0 : ℝ) < 3 ∧ min (1 : ℝ) 3 < harm_k 1 3 := by
  refine ⟨by norm_num, by norm_num, ?_⟩
  rw [harm_k]
  norm_num

/-- C6 amended: for positive k_1 and k_2 the derived effective conductivity
k_s = 2·k_1·k_2/(k_1+k_2) satisfies k_s ≤ 2·min(k_1, k_2) (it lies between
min and max, not below the min); and k_s equals exactly 0 whenever either of
k_1, k_2 is 0. -/
theorem c6_harmonic_bound (k_1 k_2 : ℝ) :
    (0 < k_1 → 0 < k_2 → harm_k k_1 k_2 ≤ 2 * min k_1 k_2) ∧
    (k_1 = 0 ∨ k_2 = 0 → harm_k k_1 k_2 = 0) := by
  constructor
  · intro h1 h2
    have hs : 0 < k_1 + k_2 := by linarith
    rw [harm_k, if_pos hs]
    rcases le_total k_1 k_2 with h | h
    · rw [min_eq_left h, div_le_iff₀ hs]
      nlinarith
    · rw [min_eq_right h, div_le_iff₀ hs]
      nlinarith
  · rintro (h | h) <;> subst h <;> simp [harm_k]

/-- Witness for C6 amended at k_1 = 1, k_2 = 2 and at k_1 = 0, k_2 = 5. -/
theorem c6_harmonic_bound_witness :
    ((0 : ℝ) < 1 ∧ (0 : ℝ) < 2 ∧ harm_k 1 2 ≤ 2 * min 1 2) ∧
    harm_k 0 5 = 0 :=
  ⟨⟨by norm_num, by norm_num,
    (c6_harmonic_bound 1 2).1 (by norm_num) (by norm_num)⟩,
   (c6_harmonic_bound 0 5).2 (Or.inl rfl)⟩

/-- Geometry used to build concrete interface configurations in witnesses. -/
noncomputable def gA : Geometry := ⟨"A", 1, 1, 1⟩

/-- Concrete interface configuration with no TIM selected. -/
noncomputable def cfg0 : Cfg := ⟨mkInterface gA gA false, "", none⟩

/-- Parameter bundle with hc_soft = 100 and unit nominal area. -/
noncomputable def pHc : IfaceParams := ⟨"A → B", 1, 1, 1, 1, 100, 1⟩

/-- Parameter bundle with hc_soft = 0 and unit nominal area. -/
noncomputable def pHcZero : IfaceParams := ⟨"A → B", 1, 1, 1, 1, 0, 1⟩

/-- Parameter bundle with zero nominal area. -/
noncomputable def pAZero : IfaceParams := ⟨"A → B", 1, 1, 1, 1, 1, 0⟩

/-- C5 counterexample: with hc_soft = 100, A_nominal = 1 and force −100, the
pressure is −100 and the source computes pct_styku = min(100, −100) = −100,
which is below 0 — the claimed lower clamp to the interval [0, 100] does not
exist in the code. -/
theorem c5_counterexample :
    (mkRow [] (fun _ _ => 0) cfg0 pHc (-100)).pct_styku = -100 ∧
    (mkRow [] (fun _ _ => 0) cfg0 pHc (-100)).pct_styku < 0 := by
  have h : (mkRow [] (fun _ _ => 0) cfg0 pHc (-100)).pct_styku = -100 := by
    show rowPct pHc ((-100) / pHc.A_nom) = -100
    rw [rowPct]
    norm_num [pHc, min_def]
  exact ⟨h, by rw [h]; norm_num⟩

/-- C5 amended: for a detail row with hc_soft > 0, pct_contact equals
min(100, 100·pressure/hc_soft) — clamped above only, so it is exactly 100
when pressure exceeds hc_soft but is negative for a negative pressure; when
hc_soft ≤ 0, pct_contact = 0; and always pct_interstitial = 100 −
pct_contact. -/
theorem c5_pct_clamp (tims : List Tim) (cfun : IfaceParams → ℝ → ℝ)
    (cfg : Cfg) (p : IfaceParams) (f : ℝ) :
    (0 < p.hc_soft →
      (mkRow tims cfun cfg p f).pct_styku = min 100 (f / p.A_nom / p.hc_soft * 100)) ∧
    (0 < p.hc_soft → p.hc_soft < f / p.A_nom →
      (mkRow tims cfun cfg p f).pct_styku = 100) ∧
    (p.hc_soft ≤ 0 → (mkRow tims cfun cfg p f).pct_styku = 0) ∧
    (mkRow tims cfun cfg p f).pct_int = 100 - (mkRow tims cfun cfg p f).pct_styku := by
  refine ⟨?_, ?_, ?_, rfl⟩
  · intro h
    show rowPct p (f / p.A_nom) = _
    rw [rowPct, if_pos h]
  · intro h hgt
    show rowPct p (f / p.A_nom) = 100
    rw [rowPct, if_pos h]
    have h1 : (1 : ℝ) < f / p.A_nom / p.hc_soft := (one_lt_div h).mpr hgt
    rw [min_eq_left (by linarith)]
  · intro h
    show rowPct p (f / p.A_nom) = 0
    rw [rowPct, if_neg (not_lt.mpr h)]

/-- Witness for C5 amended: hc_soft = 100, pressure 500 gives exactly 100;
hc_soft = 0 gives 0; pct_int is the complement. -/
theorem c5_pct_clamp_witness :
    ((0 : ℝ) < 100 ∧ (100 : ℝ) < 500 / (1 : ℝ) ∧
      (mkRow [] (fun _ _ => 0) cfg0 pHc 500).pct_styku = 100) ∧
    (mkRow [] (fun _ _ => 0) cfg0 pHcZero 1).pct_styku = 0 ∧
    (mkRow [] (fun _ _ => 0) cfg0 pHc 500).pct_int =
      100 - (mkRow [] (fun _ _ => 0) cfg0 pHc 500).pct_styku := by
  refine ⟨⟨by norm_num, by norm_num, ?_⟩, ?_, ?_⟩
  · have h := (c5_pct_clamp [] (fun _ _ => 0) cfg0 pHc 500).2.1
    exact h (by rw [pHc]; norm_num) (by rw [pHc]; norm_num)
  · exact (c5_pct_clamp [] (fun _ _ => 0) cfg0 pHcZero 1).2.2.1 (by rw [pHcZero])
  · exact (c5_pct_clamp [] (fun _ _ => 0) cfg0 pHc 500).2.2.2

/-- C4: detail rows are produced only when A_nominal > 0 (the force-loop step
leaves its state unchanged when A_nom ≤ 0); in a row, h_eff = h_contact +
h_gap, and the interface resistance TCR equals 1/(h_eff·A_nominal) — a finite
value — whenever h_eff > 0, is finite whenever one of h_contact, h_gap is
positive and neither is negative, and is the infinite sentinel when
h_eff = 0; no division-by-zero is possible in either case. -/
theorem c4_row_tcr (tims : List Tim) (cfun : IfaceParams → ℝ → ℝ)
    (cfg : Cfg) (p : IfaceParams) (f : ℝ) :
    (∀ st g, p.A_nom ≤ 0 → runStepForce tims cfun cfg p st g = st) ∧
    (mkRow tims cfun cfg p f).h_eff
      = (mkRow tims cfun cfg p f).h_c + (mkRow tims cfun cfg p f).h_int ∧
    (0 < (mkRow tims cfun cfg p f).h_eff →
      (mkRow tims cfun cfg p f).TCR
        = RVal.fin (1 / ((mkRow tims cfun cfg p f).h_eff * p.A_nom))) ∧
    ((mkRow tims cfun cfg p f).h_eff = 0 →
      (mkRow tims cfun cfg p f).TCR = RVal.infty) ∧
    (0 ≤ (mkRow tims cfun cfg p f).h_c → 0 ≤ (mkRow tims cfun cfg p f).h_int →
      (0 < (mkRow tims cfun cfg p f).h_c ∨ 0 < (mkRow tims cfun cfg p f).h_int) →
      ∃ r, (mkRow tims cfun cfg p f).TCR = RVal.fin r) := by
  have hfin : ∀ h : 0 < (mkRow tims cfun cfg p f).h_eff,
      (mkRow tims cfun cfg p f).TCR
        = RVal.fin (1 / ((mkRow tims cfun cfg p f).h_eff * p.A_nom)) := by
    intro h
    show rcomb ((mkRow tims cfun cfg p f).h_eff) p.A_nom = _
    rw [rcomb, if_pos h]
  refine ⟨?_, rfl, hfin, ?_, ?_⟩
  · intro st g h
    rw [runStepForce, if_pos h]
  · intro h0
    show rcomb ((mkRow tims cfun cfg p f).h_eff) p.A_nom = _
    rw [rcomb, if_neg (by rw [h0]; exact lt_irrefl 0)]
  · intro hc hi hor
    have hpos : 0 < (mkRow tims cfun cfg p f).h_eff := by
      have he : (mkRow tims cfun cfg p f).h_eff
          = (mkRow tims cfun cfg p f).h_c + (mkRow tims cfun cfg p f).h_int := rfl
      rw [he]
      rcases hor with h | h
      · exact add_pos_of_pos_of_nonneg h hi
      · exact add_pos_of_nonneg_of_pos hc h
    exact ⟨_, hfin hpos⟩

/-- Witness for C4: at A_nom = 0 the force-loop step is the identity; with a
kernel returning 1 and no TIM, h_eff = 1 > 0 and TCR is the finite value
1/(1·1). -/
theorem c4_row_tcr_witness :
    runStepForce [] (fun _ _ => 1) cfg0 pAZero ([], []) 1 = ([], []) ∧
    (0 : ℝ) < (mkRow [] (fun _ _ => 1) cfg0 pOne 1).h_eff ∧
    (mkRow [] (fun _ _ => 1) cfg0 pOne 1).TCR
      = RVal.fin (1 / ((mkRow [] (fun _ _ => 1) cfg0 pOne 1).h_eff * pOne.A_nom)) ∧
    (∃ r, (mkRow [] (fun _ _ => 1) cfg0 pOne 1).TCR = RVal.fin r) := by
  have hpos : (0 : ℝ) < (mkRow [] (fun _ _ => 1) cfg0 pOne 1).h_eff := by
    have he : (mkRow [] (fun _ _ => 1) cfg0 pOne 1).h_eff
        = 1 + gap_h [] cfg0.tim_name cfg0.blt pOne (1 / pOne.A_nom) := rfl
    rw [he, gap_h]
    norm_num
  refine ⟨(c4_row_tcr [] (fun _ _ => 1) cfg0 pAZero 1).1 ([], []) 1 (le_of_eq rfl),
    hpos, (c4_row_tcr [] (fun _ _ => 1) cfg0 pOne 1).2.2.1 hpos, ?_⟩
  refine (c4_row_tcr [] (fun _ _ => 1) cfg0 pOne 1).2.2.2.2 ?_ ?_ (Or.inl ?_)
  · show (0 : ℝ) ≤ 1
    norm_num
  · show (0 : ℝ) ≤ gap_h [] cfg0.tim_name cfg0.blt pOne (1 / pOne.A_nom)
    rw [gap_h]
    norm_num
  · show (0 : ℝ) < 1
    norm_num

/-- C3: the gap conductance is 0 when no TIM matches the selected name;
equals k_tim/thickness for a paste or a non-pressure-dependent gas when the
user thickness parsed to a positive value and 0 otherwise; and for a
pressure-dependent gas equals k_tim/delta with
delta = 1.53·sig_s·(P/hc_soft)^(−0.097) under the guards hc_soft > 0,
sig_s > 0, P > 0 and delta > 0, else 0 — the guarded division never raises. -/
theorem c3_gap_conductance (tims : List Tim) (tname : String) (blt : Option ℝ)
    (p : IfaceParams) (P : ℝ) :
    (tims.find? (fun t => decide (t.name = tname)) = none →
      gap_h tims tname blt p P = 0) ∧
    (∀ tim, tims.find? (fun t => decide (t.name = tname)) = some tim →
      ((tim.ttype = "paste" ∨ (tim.ttype = "gas" ∧ tim.pressure_dependent = false)) →
        gap_h tims tname blt p P =
          (match blt with
           | some b => if 0 < b then tim.k / b else 0
           | none => 0)) ∧
      (tim.ttype = "gas" → tim.pressure_dependent = true →
        gap_h tims tname blt p P =
          (if 0 < p.hc_soft ∧ 0 < p.sig_s ∧ 0 < P then
            (if 0 < 1.53 * p.sig_s * (P / p.hc_soft) ^ (-0.097 : ℝ) then
              tim.k / (1.53 * p.sig_s * (P / p.hc_soft) ^ (-0.097 : ℝ))
            else 0)
          else 0))) := by
  constructor
  · intro h
    simp only [gap_h, h]
  · intro tim h
    constructor
    · intro htype
      have hng : ¬ (tim.ttype = "gas" ∧ tim.pressure_dependent = true) := by
        rcases htype with h1 | ⟨h1, h2⟩
        · intro hcontra
          exact absurd (h1.symm.trans hcontra.1) (by decide)
        · intro hcontra
          exact absurd (h2.symm.trans hcontra.2) (by decide)
      simp only [gap_h, h, if_neg hng]
    · intro h1 h2
      simp only [gap_h, h, if_pos (And.intro h1 h2)]

/-- Concrete paste TIM used by witnesses. -/
noncomputable def timP : Tim := ⟨"P", 2, "paste", false⟩

/-- Concrete pressure-dependent gas TIM used by witnesses. -/
noncomputable def timG : Tim := ⟨"G", 3, "gas", true⟩

/-- Witness for C3: the paste TIM with thickness 2 yields k/thickness = 1,
and an empty TIM library yields 0. -/
theorem c3_gap_conductance_witness :
    gap_h [timP, timG] "P" (some 2) pOne 5 = 1 ∧
    gap_h [] "X" none pOne 5 = 0 := by
  constructor
  · have hfind : ([timP, timG].find? (fun t => decide (t.name = "P"))) = some timP := by
      rw [timP, timG]
      rfl
    have h := ((c3_gap_conductance [timP, timG] "P" (some 2) pOne 5).2 timP hfind).1
      (Or.inl (by rw [timP]))
    rw [h, timP]
    norm_num
  · exact (c3_gap_conductance [] "X" none pOne 5).1 rfl

/-- Finite TCR value the per-force scan adds for one accumulation key: the
matched entry's finite value, 0 when no entry matches or the match is the
infinite sentinel. -/
noncomputable def entryVal (pr : String × List TCREntry) (f : ℝ) : ℝ :=
  match entryFor pr.2 f with
  | some e =>
    match e.R_val with
    | .fin r => r
    | .infty => 0
  | none => 0

/-- Whether the accumulation key contributes no infinite sentinel at this
force (vacuously true when nothing matches). -/
noncomputable def entryOk (pr : String × List TCREntry) (f : ℝ) : Bool :=
  match entryFor pr.2 f with
  | some e =>
    match e.R_val with
    | .fin _ => true
    | .infty => false
  | none => true

/-- Contribution of the key to `found_interfaces`. -/
noncomputable def entryCount (pr : String × List TCREntry) (f : ℝ) : ℕ :=
  if (entryFor pr.2 f).isSome then 1 else 0

/-- Total of the finite matched TCR values at force `f`. -/
noncomputable def sumMatched (data : List (String × List TCREntry)) (f : ℝ) : ℝ :=
  (data.map (fun pr => entryVal pr f)).sum

/-- Whether no matched entry at force `f` is the infinite sentinel. -/
noncomputable def allMatchedFinite (data : List (String × List TCREntry)) (f : ℝ) : Bool :=
  data.all (fun pr => entryOk pr f)

/-- Number of keys with a matched entry at force `f`. -/
noncomputable def countMatched (data : List (String × List TCREntry)) (f : ℝ) : ℕ :=
  (data.map (fun pr => entryCount pr f)).sum

/-- Closed form of the per-force fold of `_calculate_system_q`. -/
theorem foldl_qStep (f : ℝ) (data : List (String × List TCREntry)) :
    ∀ (s : ℝ) (v : Bool) (n : ℕ),
      data.foldl (qStep f) (s, v, n)
        = (s + sumMatched data f, v && allMatchedFinite data f, n + countMatched data f) := by
  induction data with
  | nil =>
    intro s v n
    simp [sumMatched, allMatchedFinite, countMatched]
  | cons pr t ih =>
    intro s v n
    have hq : qStep f (s, v, n) pr
        = (s + entryVal pr f, v && entryOk pr f, n + entryCount pr f) := by
      unfold qStep entryVal entryOk entryCount
      cases he : entryFor pr.2 f with
      | none => simp
      | some e =>
        cases hr : e.R_val with
        | fin r => simp [hr]
        | infty => simp [hr]
    rw [List.foldl_cons, hq, ih]
    simp only [sumMatched, allMatchedFinite, countMatched, List.map_cons,
      List.sum_cons, List.all_cons, Prod.mk.injEq]
    refine ⟨by ring, by simp [Bool.and_assoc], by omega⟩

/-- Closed form of `summaryRowFor` in terms of the matched-entry scan. -/
theorem summaryRowFor_eq (Rb dT : ℝ) (data : List (String × List TCREntry)) (f : ℝ) :
    summaryRowFor Rb dT data f
      = (if allMatchedFinite data f = false ∨ countMatched data f = 0 then
          ⟨f, Rb, sumMatched data f, RVal.infty, 0⟩
        else
          ⟨f, Rb, sumMatched data f, RVal.fin (Rb + sumMatched data f),
            if 0 < Rb + sumMatched data f then dT / (Rb + sumMatched data f) else 0⟩) := by
  unfold summaryRowFor
  rw [foldl_qStep]
  simp

/-- A key matching an infinite-sentinel entry falsifies the validity flag. -/
theorem allMatchedFinite_eq_false_of (data : List (String × List TCREntry)) (f : ℝ)
    (h : ∃ pr ∈ data, ∃ e, entryFor pr.2 f = some e ∧ e.R_val = RVal.infty) :
    allMatchedFinite data f = false := by
  rcases h with ⟨pr, hmem, e, he, hr⟩
  unfold allMatchedFinite
  rw [List.all_eq_false]
  refine ⟨pr, hmem, ?_⟩
  simp [entryOk, he, hr]

/-- When every matched entry is finite, the validity flag stays true. -/
theorem allMatchedFinite_eq_true_of (data : List (String × List TCREntry)) (f : ℝ)
    (h : ∀ pr ∈ data, ∀ e, entryFor pr.2 f = some e → ∃ r, e.R_val = RVal.fin r) :
    allMatchedFinite data f = true := by
  unfold allMatchedFinite
  rw [List.all_eq_true]
  intro pr hmem
  unfold entryOk
  cases he : entryFor pr.2 f with
  | none => rfl
  | some e =>
    rcases h pr hmem e he with ⟨r, hr⟩
    simp [hr]

/-- A key with a matched entry makes `found_interfaces` positive. -/
theorem countMatched_ne_zero_of (data : List (String × List TCREntry)) (f : ℝ)
    (h : ∃ pr ∈ data, (entryFor pr.2 f).isSome = true) :
    countMatched data f ≠ 0 := by
  rcases h with ⟨pr, hmem, hsome⟩
  intro h0
  unfold countMatched at h0
  have h1 := (List.sum_eq_zero_iff).mp h0 (entryCount pr f)
    (List.mem_map_of_mem _ hmem)
  unfold entryCount at h1
  rw [if_pos hsome] at h1
  exact one_ne_zero h1

/-- With no matched entry at all, `found_interfaces` is zero. -/
theorem countMatched_eq_zero_of (data : List (String × List TCREntry)) (f : ℝ)
    (h : ∀ pr ∈ data, entryFor pr.2 f = none) :
    countMatched data f = 0 := by
  unfold countMatched
  apply List.sum_eq_zero
  intro x hx
  rcases List.mem_map.mp hx with ⟨pr, hpr, rfl⟩
  simp [entryCount, h pr hpr]

/-- C1: for every force in the forces list its summary row (a member of the
run's summary table) obeys the series rule — if any interface's TCR value
matched at that force is the infinite sentinel, R_total is the infinite
sentinel and Q = 0 regardless of the other finite values; otherwise, with at
least one interface contributing a TCR value at that force, R_total =
R_bulk + ΣTCR and Q = |thot − tcold| / R_total, with Q = 0 when
R_total ≤ 0. -/
theorem c1_series_rule (materials : String → Material) (geoms : List Geometry)
    (forces : List ℝ) (data : List (String × List TCREntry)) (thot tcold f : ℝ)
    (hf : f ∈ forces) :
    summaryRowFor (bulk_total materials geoms) |thot - tcold| data f ∈
      calculate_system_q materials geoms forces data thot tcold ∧
    ((∃ pr ∈ data, ∃ e, entryFor pr.2 f = some e ∧ e.R_val = RVal.infty) →
      (summaryRowFor (bulk_total materials geoms) |thot - tcold| data f).R_total
          = RVal.infty ∧
      (summaryRowFor (bulk_total materials geoms) |thot - tcold| data f).Q = 0) ∧
    ((∃ pr ∈ data, (entryFor pr.2 f).isSome = true) →
     (∀ pr ∈ data, ∀ e, entryFor pr.2 f = some e → ∃ r, e.R_val = RVal.fin r) →
      (summaryRowFor (bulk_total materials geoms) |thot - tcold| data f).R_total
          = RVal.fin (bulk_total materials geoms + sumMatched data f) ∧
      (summaryRowFor (bulk_total materials geoms) |thot - tcold| data f).Q
          = (if 0 < bulk_total materials geoms + sumMatched data f then
              |thot - tcold| / (bulk_total materials geoms + sumMatched data f)
            else 0)) := by
  refine ⟨?_, ?_, ?_⟩
  · unfold calculate_system_q
    exact List.mem_map_of_mem _ hf
  · intro hinf
    have hA := allMatchedFinite_eq_false_of data f hinf
    rw [summaryRowFor_eq, if_pos (Or.inl hA)]
    exact ⟨rfl, rfl⟩
  · intro hsome hall
    have hA := allMatchedFinite_eq_true_of data f hall
    have hC := countMatched_ne_zero_of data f hsome
    have hng : ¬ (allMatchedFinite data f = false ∨ countMatched data f = 0) := by
      rintro (h | h)
      · rw [hA] at h
        exact absurd h (by decide)
      · exact hC h
    rw [summaryRowFor_eq, if_neg hng]
    exact ⟨rfl, rfl⟩

/-- Accumulation data with a single key and a single finite entry at force 1,
used by witnesses. -/
noncomputable def dataFin : List (String × List TCREntry) := [("A → B", [⟨1, RVal.fin 2⟩])]

/-- The single entry of `dataFin` matches force 1. -/
theorem dataFin_entry : entryFor [⟨1, RVal.fin 2⟩] 1 = some ⟨1, RVal.fin 2⟩ := by
  unfold entryFor
  rw [List.find?_cons_of_pos]
  rw [decide_eq_true_eq]
  norm_num

/-- Witness for C1: with one interface contributing the finite value 2 at
force 1, R_total is the finite value R_bulk + 2. -/
theorem c1_series_rule_witness :
    (1 : ℝ) ∈ [(1 : ℝ)] ∧
    (summaryRowFor (bulk_total (fun _ => Material.empty) []) |(3 : ℝ) - 1| dataFin 1).R_total
      = RVal.fin (bulk_total (fun _ => Material.empty) [] + sumMatched dataFin 1) ∧
    (summaryRowFor (bulk_total (fun _ => Material.empty) []) |(3 : ℝ) - 1| dataFin 1).Q
      = (if 0 < bulk_total (fun _ => Material.empty) [] + sumMatched dataFin 1 then
          |(3 : ℝ) - 1| / (bulk_total (fun _ => Material.empty) [] + sumMatched dataFin 1)
        else 0) := by
  have h := (c1_series_rule (fun _ => Material.empty) [] [1] dataFin 3 1 1
      (List.mem_singleton_self 1)).2.2
      ⟨("A → B", [⟨1, RVal.fin 2⟩]), by rw [dataFin]; exact List.mem_singleton_self _,
        by rw [dataFin_entry]; rfl⟩
      ?_
  · exact ⟨List.mem_singleton_self 1, h.1, h.2⟩
  · rintro pr hpr e he
    rw [dataFin, List.mem_singleton] at hpr
    subst hpr
    rw [dataFin_entry] at he
    cases he
    exact ⟨2, rfl⟩

/-- C10: for a force with no accumulated TCR entry at all (every configured
interface skipped), the summary row reports the infinite sentinel and Q = 0
rather than R_bulk with a positive heat flow. -/
theorem c10_no_contribution (materials : String → Material) (geoms : List Geometry)
    (forces : List ℝ) (data : List (String × List TCREntry)) (thot tcold f : ℝ)
    (hf : f ∈ forces)
    (hnone : ∀ pr ∈ data, entryFor pr.2 f = none) :
    summaryRowFor (bulk_total materials geoms) |thot - tcold| data f ∈
      calculate_system_q materials geoms forces data thot tcold ∧
    (summaryRowFor (bulk_total materials geoms) |thot - tcold| data f).R_total
        = RVal.infty ∧
    (summaryRowFor (bulk_total materials geoms) |thot - tcold| data f).Q = 0 := by
  refine ⟨?_, ?_⟩
  · unfold calculate_system_q
    exact List.mem_map_of_mem _ hf
  · have hC := countMatched_eq_zero_of data f hnone
    rw [summaryRowFor_eq, if_pos (Or.inr hC)]
    exact ⟨rfl, rfl⟩

/-- Witness for C10 with one accumulation key holding no entries. -/
theorem c10_no_contribution_witness :
    (1 : ℝ) ∈ [(1 : ℝ)] ∧
    (summaryRowFor (bulk_total (fun _ => Material.empty) []) |(3 : ℝ) - 1|
        [("A → B", [])] 1).R_total = RVal.infty ∧
    (summaryRowFor (bulk_total (fun _ => Material.empty) []) |(3 : ℝ) - 1|
        [("A → B", [])] 1).Q = 0 := by
  have h := c10_no_contribution (fun _ => Material.empty) [] [1] [("A → B", [])] 3 1 1
    (List.mem_singleton_self 1) ?_
  · exact ⟨List.mem_singleton_self 1, h.2.1, h.2.2⟩
  · intro pr hpr
    rw [List.mem_singleton] at hpr
    subst hpr
    rfl

/-- C7: R_bulk is the sum over layers whose conductivity parses and is
positive of height/(k·length·width) — layers with k ≤ 0 or missing
contribute nothing, not an infinite amount — and every summary row of a run
carries this same force-independent value in its R_U field. -/
theorem c7_bulk_resistance (materials : String → Material) (gs : List Geometry)
    (forces : List ℝ) (data : List (String × List TCREntry)) (thot tcold : ℝ) :
    bulk_total materials gs =
      (gs.map (fun g =>
        match ((materials g.name).k).toFloat with
        | some k => if 0 < k then g.height / (k * (g.length * g.width)) else 0
        | none => 0)).sum ∧
    (∀ row ∈ calculate_system_q materials gs forces data thot tcold,
      row.R_U = bulk_total materials gs) := by
  constructor
  · unfold bulk_total
    have hfun : bulkContribution materials = fun g : Geometry =>
        (match ((materials g.name).k).toFloat with
         | some k => if 0 < k then g.height / (k * (g.length * g.width)) else 0
         | none => 0) := by
      funext g
      unfold bulkContribution
      cases hk : ((materials g.name).k).toFloat with
      | none => rfl
      | some k =>
        by_cases hpos : 0 < k
        · by_cases hz : k * (g.length * g.width) = 0
          · simp [hpos, hz]
          · simp [hpos, hz]
        · simp [hpos]
    rw [hfun]
  · intro row hrow
    unfold calculate_system_q at hrow
    rcases List.mem_map.mp hrow with ⟨g, hg, rfl⟩
    rw [summaryRowFor_eq]
    split_ifs <;> rfl

/-- Material table mapping the layer "A" to conductivity 2. -/
noncomputable def matK2 : String → Material :=
  fun n => if n = "A" then ⟨.missing, .missing, .num 2, .missing, .missing, .missing⟩
    else Material.empty

/-- Witness for C7: one 1×1×1 layer of conductivity 2 gives R_bulk = 1/2,
and the single summary row of a run over it carries that value. -/
theorem c7_bulk_resistance_witness :
    bulk_total matK2 [gA] = 1 / 2 ∧
    (summaryRowFor (bulk_total matK2 [gA]) |(3 : ℝ) - 1| [] 1).R_U
      = bulk_total matK2 [gA] := by
  constructor
  · have h := (c7_bulk_resistance matK2 [gA] [1] [] 3 1).1
    rw [h, List.map_singleton, List.sum_singleton]
    norm_num [gA, matK2, FVal.toFloat]
  · exact (c7_bulk_resistance matK2 [gA] [1] [] 3 1).2
      (summaryRowFor (bulk_total matK2 [gA]) |(3 : ℝ) - 1| [] 1)
      (by unfold calculate_system_q; exact List.mem_map_of_mem _ (List.mem_singleton_self 1))

/-- C8: run_model rejects an empty interface-configuration mapping, and a
non-empty configuration with an empty forces list, returning failure with the
descriptive reason string and empty detail and summary tables. -/
theorem c8_preconditions (materials : String → Material) (tims : List Tim)
    (geoms : List Geometry) (forces : List ℝ) (cfun : IfaceParams → ℝ → ℝ)
    (configs : List Cfg) (thot tcold : ℝ) :
    (configs = [] →
      run_model materials tims geoms forces cfun configs thot tcold
        = ⟨false, "Brak skonfigurowanych interfejsów.", [], []⟩) ∧
    (configs ≠ [] → forces = [] →
      run_model materials tims geoms forces cfun configs thot tcold
        = ⟨false, "Brak zdefiniowanych sił w systemie.", [], []⟩) := by
  constructor
  · intro h
    subst h
    rfl
  · intro h hforce
    subst hforce
    cases configs with
    | nil => exact absurd rfl h
    | cons c cs => rfl

/-- Witness for C8 at concrete empty-configuration and empty-forces calls. -/
theorem c8_preconditions_witness :
    run_model (fun _ => Material.empty) [] [] [1] (fun _ _ => 0) [] 0 0
      = ⟨false, "Brak skonfigurowanych interfejsów.", [], []⟩ ∧
    run_model (fun _ => Material.empty) [] [] [] (fun _ _ => 0) [cfg0] 0 0
      = ⟨false, "Brak zdefiniowanych sił w systemie.", [], []⟩ :=
  ⟨(c8_preconditions (fun _ => Material.empty) [] [] [1] (fun _ _ => 0) [] 0 0).1 rfl,
   (c8_preconditions (fun _ => Material.empty) [] [] [] (fun _ _ => 0) [cfg0] 0 0).2
     (List.cons_ne_nil cfg0 []) rfl⟩

/-- Inserting a fresh key into the dict appends it. -/
theorem dinsert_of_not_mem (d : List ((String × String) × Bool))
    (kv : (String × String) × Bool) (h : ∀ pr ∈ d, pr.1 ≠ kv.1) :
    dinsert d kv = d ++ [kv] := by
  have hany : d.any (fun pr => decide (pr.1 = kv.1)) = false := by
    rw [List.any_eq_false]
    intro pr hpr
    simp [h pr hpr]
  unfold dinsert
  rw [hany]
  simp

/-- With pairwise-distinct keys the dict comprehension is just the key-value
listing in order. -/
theorem foldl_dinsert (l : List Interface) :
    ∀ (d : List ((String × String) × Bool)),
      (∀ i ∈ l, ∀ pr ∈ d, pr.1 ≠ ikey i) → (l.map ikey).Nodup →
      l.foldl (fun d i => dinsert d (ikey i, i.has_tcr)) d
        = d ++ l.map (fun i => (ikey i, i.has_tcr)) := by
  induction l with
  | nil =>
    intro d _ _
    simp
  | cons a t ih =>
    intro d hd hnd
    rw [List.map_cons, List.nodup_cons] at hnd
    rw [List.foldl_cons,
      dinsert_of_not_mem d (ikey a, a.has_tcr)
        (fun pr hpr => hd a (List.mem_cons_self a t) pr hpr)]
    rw [ih (d ++ [(ikey a, a.has_tcr)]) ?_ hnd.2]
    · simp
    · intro i hi pr hpr
      rcases List.mem_append.mp hpr with hm | hm
      · exact hd i (List.mem_cons_of_mem a hi) pr hm
      · rw [List.mem_singleton] at hm
        subst hm
        intro hcontra
        have hc2 : ikey a = ikey i := hcontra
        exact hnd.1 (by rw [hc2]; exact List.mem_map_of_mem ikey hi)

/-- `dictOf` with distinct keys lists each interface's key and flag once. -/
theorem dictOf_eq_map (old : List Interface) (hnd : (old.map ikey).Nodup) :
    dictOf old = old.map (fun i => (ikey i, i.has_tcr)) := by
  unfold dictOf
  have h := foldl_dinsert old [] (by intro i _ pr hpr; cases hpr) hnd
  simpa using h

/-- `dict.get(key, False)` over the listed dict agrees with the spec-side
lookup of the old interface list. -/
theorem dget_eq_flagSpec (old : List Interface) (hnd : (old.map ikey).Nodup)
    (k : String × String) : dget (dictOf old) k = flagSpec old k := by
  rw [dictOf_eq_map old hnd]
  clear hnd
  induction old with
  | nil => rfl
  | cons a t ih =>
    by_cases h : ikey a = k
    · simp [dget, flagSpec, List.find?_cons, h]
    · rw [List.map_cons]
      unfold dget flagSpec
      rw [List.find?_cons_of_neg _ (by simp [h]), List.find?_cons_of_neg _ (by simp [h])]
      exact ih

/-- A pair that was an interface before the rebuild keeps its flag. -/
theorem flagSpec_preserved (old : List Interface) (hnd : (old.map ikey).Nodup)
    (i : Interface) (hi : i ∈ old) : flagSpec old (ikey i) = i.has_tcr := by
  induction old with
  | nil => cases hi
  | cons a t ih =>
    rw [List.map_cons, List.nodup_cons] at hnd
    rcases List.mem_cons.mp hi with hm | hm
    · subst hm
      simp [flagSpec, List.find?_cons]
    · have hne : ¬ (ikey a = ikey i) := by
        intro hcontra
        exact hnd.1 (by rw [hcontra]; exact List.mem_map_of_mem ikey hm)
      unfold flagSpec
      rw [List.find?_cons_of_neg _ (by simp [hne])]
      exact ih hnd.2 hm

/-- A pair that was not an interface before the rebuild gets flag `false`. -/
theorem flagSpec_new (old : List Interface) (k : String × String)
    (h : ∀ i ∈ old, ikey i ≠ k) : flagSpec old k = false := by
  unfold flagSpec
  have hfind : old.find? (fun i => decide (ikey i = k)) = none := by
    rw [List.find?_eq_none]
    intro i hi
    simp [h i hi]
  rw [hfind]

/-- C9: after a rebuild the interface list has exactly one interface per
consecutive geometry pair, in stack order, each built by the `Interface`
constructor so that A_nominal = min(area_top, area_bottom); its flag is the
old interface's has_tcr when the (top-name, bottom-name) pair was an
interface before and `false` for a new pair; and the reported removed list
contains exactly the previously TCR-flagged pairs that no longer exist. The
old interface list is assumed to have pairwise-distinct name pairs, as the
controller's unique-name validation guarantees. -/
theorem c9_rebuild_interfaces (old : List Interface) (gs : List Geometry)
    (hnd : (old.map ikey).Nodup) :
    (rebuild_interfaces old gs).1
        = (consecutivePairs gs).map
            (fun pr => mkInterface pr.1 pr.2 (flagSpec old (pr.1.name, pr.2.name))) ∧
    (rebuild_interfaces old gs).1.length = gs.length - 1 ∧
    (∀ i ∈ (rebuild_interfaces old gs).1,
        i.A_nominal = min i.geom_top.area i.geom_bottom.area) ∧
    (∀ i ∈ old, flagSpec old (ikey i) = i.has_tcr) ∧
    (∀ k, (∀ i ∈ old, ikey i ≠ k) → flagSpec old k = false) ∧
    (∀ k, k ∈ (rebuild_interfaces old gs).2 ↔
        ((∃ i ∈ old, ikey i = k ∧ i.has_tcr = true) ∧ k ∉ newKeysOf gs)) := by
  have h1 : (rebuild_interfaces old gs).1
      = (consecutivePairs gs).map
          (fun pr => mkInterface pr.1 pr.2 (flagSpec old (pr.1.name, pr.2.name))) := by
    unfold rebuild_interfaces
    have hfun : (fun pr : Geometry × Geometry =>
          mkInterface pr.1 pr.2 (dget (dictOf old) (pr.1.name, pr.2.name)))
        = (fun pr => mkInterface pr.1 pr.2 (flagSpec old (pr.1.name, pr.2.name))) := by
      funext pr
      rw [dget_eq_flagSpec old hnd]
    rw [hfun]
  refine ⟨h1, ?_, ?_, ?_, ?_, ?_⟩
  · rw [h1, List.length_map]
    unfold consecutivePairs
    rw [List.length_zip, List.length_tail]
    omega
  · rw [h1]
    intro i hi
    rcases List.mem_map.mp hi with ⟨pr, _, rfl⟩
    rfl
  · intro i hi
    exact flagSpec_preserved old hnd i hi
  · intro k hk
    exact flagSpec_new old k hk
  · intro k
    show k ∈ ((dictOf old).filter _).map _ ↔ _
    rw [dictOf_eq_map old hnd]
    constructor
    · intro hmem
      rcases List.mem_map.mp hmem with ⟨kv, hkv, rfl⟩
      rcases List.mem_filter.mp hkv with ⟨hkv1, hkv2⟩
      rcases List.mem_map.mp hkv1 with ⟨i, hi, rfl⟩
      rcases Bool.and_eq_true_iff.mp hkv2 with ⟨htcr, hnot⟩
      refine ⟨⟨i, hi, rfl, htcr⟩, ?_⟩
      intro hin
      rw [Bool.not_eq_true', List.any_eq_false] at hnot
      have hx := hnot _ hin
      simp at hx
    · rintro ⟨⟨i, hi, hk, htcr⟩, hnotin⟩
      subst hk
      refine List.mem_map.mpr ⟨(ikey i, i.has_tcr), ?_, rfl⟩
      refine List.mem_filter.mpr ⟨List.mem_map_of_mem _ hi, ?_⟩
      rw [Bool.and_eq_true_iff]
      refine ⟨htcr, ?_⟩
      rw [Bool.not_eq_true', List.any_eq_false]
      intro x hx
      simp only [decide_eq_true_eq]
      intro hcontra
      subst hcontra
      exact hnotin hx

/-- Geometry named "B" used in the C9 witness. -/
noncomputable def gB : Geometry := ⟨"B", 1, 1, 1⟩

/-- Geometry named "C" used in the C9 witness. -/
noncomputable def gC : Geometry := ⟨"C", 2, 1, 1⟩

/-- Witness for C9: one old TCR-flagged interface B→C, new stack [B, A]; the
rebuilt list has one interface, the vanished pair ("B","C") is reported, and
the preserved-flag equation holds for the old interface. -/
theorem c9_rebuild_interfaces_witness :
    ([mkInterface gB gC true].map ikey).Nodup ∧
    (rebuild_interfaces [mkInterface gB gC true] [gB, gA]).1.length = 1 ∧
    (("B", "C") ∈ (rebuild_interfaces [mkInterface gB gC true] [gB, gA]).2) ∧
    flagSpec [mkInterface gB gC true] (ikey (mkInterface gB gC true))
      = (mkInterface gB gC true).has_tcr := by
  have hnd : ([mkInterface gB gC true].map ikey).Nodup := List.nodup_singleton _
  have h := c9_rebuild_interfaces [mkInterface gB gC true] [gB, gA] hnd
  refine ⟨hnd, h.2.1, ?_, h.2.2.2.1 (mkInterface gB gC true) (List.mem_singleton_self _)⟩
  refine (h.2.2.2.2.2 ("B", "C")).mpr ⟨⟨mkInterface gB gC true, List.mem_singleton_self _, rfl, rfl⟩, ?_⟩
  intro hin
  have : newKeysOf [gB, gA] = [("B", "A")] := by
    unfold newKeysOf consecutivePairs
    rfl
  rw [this, List.mem_singleton] at hin
  exact absurd hin (by decide)

end TCR
